import Mathlib

/-
Verification of the playback-queue and session-reconciliation core of the
Alexa Plex music player skill (src/lambda/lambda_function.py).

The Python source is shallowly embedded: every function below is translated
line by line from the source file.  External collaborators (the Plex media
server, DynamoDB, difflib similarity ratios, random sampling) appear as
explicit parameters; machine behaviour that the source relies on (DynamoDB
put/get/update semantics, `plexapi.fetchItem` returning the item whose
ratingKey was requested) is modelled by those parameters' types and the
hypotheses stated about them at each theorem.

Naming follows the source: `filter_tracks_by_rating`,
`fetch_playlist_tracks_paginated`, `plex_api_call_with_retry`,
`fuzzy_match_artist`, `save_queue`, `get_queue`, `update_queue_index`,
`MAX_TRACKS`, `ARTIST_MAPPINGS`; request handlers keep their class names
(`PlaybackNearlyFinishedHandler.handle` and so on).
-/

/-! ## Data model

A Plex track as the selection pipeline sees it: an opaque `ratingKey`
(`key`), a title, and its user-rating state.  The Python code probes the
rating with `hasattr`/`is not None` inside a `try`, so the rating state has
three shapes: the probe raises, the track is unrated, or it carries a
rating on Plex's 0-10 scale (a float in the source, modelled as `ℚ`). -/

inductive RatingInfo where
  | raises
  | unrated
  | rated (r : ℚ)
deriving DecidableEq, Repr

structure PlexTrack where
  key : Nat
  title : String
  rating : RatingInfo
deriving DecidableEq, Repr

/-- A serialized track descriptor as stored in DynamoDB by `serialize_track`:
`{key, title, artist}`. -/
structure TrackInfo where
  key : Nat
  title : String
  artist : String
deriving DecidableEq, Repr

/-- The persisted queue record (one per listener): `tracks`,
`current_index`, `shuffle`.  Every index the code writes is non-negative,
so `current_index` is a `Nat`. -/
structure QueueData where
  tracks : List TrackInfo
  current_index : Nat
  shuffle : Bool
deriving DecidableEq, Repr

/-- Policy constant `MAX_TRACKS = 150` from the source. -/
def MAX_TRACKS : Nat := 150

/-! ## `filter_tracks_by_rating` (source lines 273-301) -/

/-- The per-track decision inside the loop of `filter_tracks_by_rating`:
if the rating probe raises, include (fail open); if the track has no
rating, include; if it has rating `r`, include iff `r >= 4.0 or r == 0`. -/
def keepTrack (t : PlexTrack) : Bool :=
  match t.rating with
  | .raises => true
  | .unrated => true
  | .rated r => decide (4 ≤ r) || decide (r = 0)

/-- Source `filter_tracks_by_rating`: appends, in input order, every track the
loop body keeps. -/
def filter_tracks_by_rating (tracks : List PlexTrack) : List PlexTrack :=
  tracks.filter keepTrack

/-- The filter as the amended claim states it: a track is excluded iff it
carries an explicit rating that is neither exactly 0 nor at least 4.0;
unrated tracks and tracks whose rating check raises are included. -/
def keepTrackAmended (t : PlexTrack) : Bool :=
  match t.rating with
  | .rated r => decide (r = 0) || decide (4 ≤ r)
  | _ => true

/-- Claim C2 (counterexample): the claim says a track is excluded only when
its explicit rating is exactly 2.0, so a track rated 1.0 (half a star)
would be included; the code excludes every rated track with a nonzero
rating below 4.0, and in particular drops a track rated 1.0. -/
theorem C2_counterexample :
    filter_tracks_by_rating [⟨7, "t", .rated 1⟩] = [] ∧ (1 : ℚ) ≠ 2 := by
  constructor
  · decide
  · decide

/-- Claim C2 (amended): the rating filter excludes a track iff it carries
an explicit user rating that is neither exactly 0 nor at least 4.0 on the
0-10 scale; unrated tracks and tracks whose rating check raises are
included; included tracks keep their relative input order (the output is a
sublist of the input); and the spec's own example `[0, 2.0, 4.0, 6.0]`
yields the tracks rated `[0, 4.0, 6.0]`. -/
theorem C2_filter_amended (l : List PlexTrack) :
    filter_tracks_by_rating l = l.filter keepTrackAmended ∧
    (filter_tracks_by_rating l).Sublist l ∧
    filter_tracks_by_rating
        [⟨1, "a", .rated 0⟩, ⟨2, "b", .rated 2⟩, ⟨3, "c", .rated 4⟩,
         ⟨4, "d", .rated 6⟩] =
      [⟨1, "a", .rated 0⟩, ⟨3, "c", .rated 4⟩, ⟨4, "d", .rated 6⟩] := by
  refine ⟨?_, List.filter_sublist l, by decide⟩
  unfold filter_tracks_by_rating
  congr 1
  funext t
  unfold keepTrack keepTrackAmended
  cases t.rating with
  | raises => rfl
  | unrated => rfl
  | rated r => simp [Bool.or_comm]

/-! ## `PlayMusicIntentHandler.handle` track resolution (source lines 559-690)

The handler resolves exactly one of playlist / track / album / artist and
then unconditionally serializes and saves whatever list resulted.  The
external search results are inputs: `none` means the named entity was not
found (the handler returns early without saving), `some ts` means it was
found and `ts` is the track list obtained from the server. -/

/-- The `seen_keys` deduplication loop in the artist branch: keep the first
occurrence of each `ratingKey`, stopping once `MAX_TRACKS * 2` unique
tracks are collected.  `remaining` is how many more unique tracks may be
appended before the `len(unique_tracks) >= MAX_TRACKS * 2` break fires. -/
def dedupLimited (remaining : Nat) (seen : List Nat) :
    List PlexTrack → List PlexTrack
  | [] => []
  | t :: ts =>
    if t.key ∈ seen then dedupLimited remaining seen ts
    else if remaining ≤ 1 then [t]
    else t :: dedupLimited (remaining - 1) (t.key :: seen) ts

/-- The artist branch: early limit to `MAX_TRACKS * 3` when the artist has
more than `MAX_TRACKS` tracks, deduplicate by key (stopping at
`MAX_TRACKS * 2` unique tracks), filter by rating, cap at `MAX_TRACKS`. -/
def artistQueue (allArtistTracks : List PlexTrack) : List PlexTrack :=
  let tracksToProcess :=
    if MAX_TRACKS < allArtistTracks.length
    then allArtistTracks.take (MAX_TRACKS * 3) else allArtistTracks
  let uniqueTracks := dedupLimited (MAX_TRACKS * 2) [] tracksToProcess
  (filter_tracks_by_rating uniqueTracks).take MAX_TRACKS

/-- Which branch of `PlayMusicIntentHandler.handle` runs, together with
the media server's response for the named entity. -/
inductive PlayReq where
  | playlistReq (found : Option (List PlexTrack))
  | trackReq (results : List PlexTrack)
  | albumReq (found : Option (List PlexTrack))
  | artistReq (found : Option (List PlexTrack))
  | noneReq

/-- The list of tracks `PlayMusicIntentHandler.handle` passes to
`save_queue`, or `none` when the handler returns early without saving
(entity not found, single track filtered out, or no slot given).
Playlist branch: filter then cap.  Track branch: first surviving search
result, early return when the search or the filter leaves nothing.
Album branch: filter then cap.  Artist branch: `artistQueue`. -/
def playMusicSave : PlayReq → Option (List PlexTrack)
  | .playlistReq none => none
  | .playlistReq (some ts) => some ((filter_tracks_by_rating ts).take MAX_TRACKS)
  | .trackReq results =>
    if results.isEmpty then none
    else
      match filter_tracks_by_rating results with
      | [] => none
      | t :: _ => some [t]
  | .albumReq none => none
  | .albumReq (some ts) => some ((filter_tracks_by_rating ts).take MAX_TRACKS)
  | .artistReq none => none
  | .artistReq (some ts) => some (artistQueue ts)
  | .noneReq => none

/-- The saved list after the optional `random.shuffle` (applied only when
shuffle was requested and more than one track resolved); the permutation
drawn by `random.shuffle` is the parameter `perm`. -/
def playMusicSaveShuffled (perm : List PlexTrack → List PlexTrack)
    (shouldShuffle : Bool) (req : PlayReq) : Option (List PlexTrack) :=
  (playMusicSave req).map
    (fun ts => if shouldShuffle && decide (1 < ts.length) then perm ts else ts)

/-- Source `serialize_track` with a cached artist name (the success path: the
stored descriptor carries the track's `ratingKey` and title). -/
def serialize_track (artistName : String) (t : PlexTrack) : TrackInfo :=
  ⟨t.key, t.title, artistName⟩

/-- The record `save_queue` writes for a play request that resolved:
serialized tracks, `current_index = 0`, the shuffle flag.  `none` means
the handler returned early and wrote nothing. -/
def initialSave (artistName : String)
    (perm : List PlexTrack → List PlexTrack) (shouldShuffle : Bool)
    (req : PlayReq) : Option QueueData :=
  (playMusicSaveShuffled perm shouldShuffle req).map
    (fun ts => ⟨ts.map (serialize_track artistName), 0, shouldShuffle⟩)

/-- Claim C3 (counterexample): a playlist request that matches a playlist
whose only track is rated 2.0 (so filtering leaves zero playable tracks)
still writes a queue record, with an empty `tracks` list — the claim says
no record is written in that case. -/
theorem C3_counterexample :
    initialSave "A" id false (.playlistReq (some [⟨1, "x", .rated 2⟩]))
      = some ⟨[], 0, false⟩ := by
  decide

/-- Claim C3 (amended): only the single-track request path guarantees that
zero playable tracks means no write — it never saves an empty list; the
playlist (and album/artist) paths write the filtered, capped list whenever
the named entity resolves, even when that list is empty, so a persisted
QueueState reachable through the play path may have an empty tracks
list. -/
theorem C3_amended :
    (∀ results ts, playMusicSave (.trackReq results) = some ts →
       1 ≤ ts.length) ∧
    (∀ ts, playMusicSave (.playlistReq (some ts))
       = some ((filter_tracks_by_rating ts).take MAX_TRACKS)) := by
  constructor
  · intro results ts h
    unfold playMusicSave at h
    by_cases he : results.isEmpty
    · simp [he] at h
    · simp only [he, if_false] at h
      cases hf : filter_tracks_by_rating results with
      | nil => rw [hf] at h; exact absurd h (by simp)
      | cons t rest => rw [hf] at h; cases h; simp
  · intro ts
    rfl

/-- Claim C3 witness: the amended claim applied to the concrete single-track
request whose one result survives filtering. -/
theorem C3_amended_witness :
    playMusicSave (.trackReq [⟨5, "s", .unrated⟩]) = some [⟨5, "s", .unrated⟩] ∧
    1 ≤ ([⟨5, "s", .unrated⟩] : List PlexTrack).length := by
  refine ⟨by decide, ?_⟩
  exact C3_amended.1 [⟨5, "s", .unrated⟩] [⟨5, "s", .unrated⟩] (by decide)

/-! ## QueueStore wrappers (source lines 136-190)

The DynamoDB-backed store for one listener is `Option QueueData` (the
record or its absence).  Each wrapper catches every exception from the
underlying boto3 call and returns normally; the possibility that the call
raises is the explicit `fail` parameter.  That the wrappers never raise is
expressed by their types: they are total functions whose codomain carries
no error channel. -/

/-- Source `save_queue`: unconditional `put_item`; on a storage exception the
error is logged and swallowed, leaving the store as it was. -/
def save_queue (fail : Bool) (store : Option QueueData)
    (tracks : List TrackInfo) (currentIndex : Nat) (shuffle : Bool) :
    Option QueueData :=
  if fail then store else some ⟨tracks, currentIndex, shuffle⟩

/-- Source `get_queue`: returns the item when present, `None` when absent, and
`None` when the read raises. -/
def get_queue (fail : Bool) (store : Option QueueData) : Option QueueData :=
  if fail then none else store

/-- Source `update_queue_index`: partial `update_item` of only `current_index`;
exceptions are logged and swallowed.  (On an absent record DynamoDB's
`update_item` creates an item holding only the key and the index.) -/
def update_queue_index (fail : Bool) (store : Option QueueData)
    (newIndex : Nat) : Option QueueData :=
  if fail then store
  else
    match store with
    | some q => some ⟨q.tracks, newIndex, q.shuffle⟩
    | none => some ⟨[], newIndex, false⟩

/-- Claim C10: the store wrappers never signal errors to callers.  A
failed `save_queue` or `update_queue_index` returns normally and leaves
the previous record in place, and `get_queue` returns `none` both when the
read fails (even though a record exists) and when no record exists, so a
caller cannot distinguish a store failure from "no active queue". -/
theorem C10_store_error_swallowing :
    (∀ (store : Option QueueData) (ts : List TrackInfo) (i : Nat) (sh : Bool),
       save_queue true store ts i sh = store) ∧
    (∀ (store : Option QueueData) (i : Nat),
       update_queue_index true store i = store) ∧
    (∀ q : QueueData, get_queue true (some q) = none) ∧
    get_queue false none = none ∧
    (∀ (store : Option QueueData) (ts : List TrackInfo) (i : Nat) (sh : Bool),
       save_queue false store ts i sh = some ⟨ts, i, sh⟩) := by
  refine ⟨fun _ _ _ _ => rfl, fun _ _ => rfl, fun _ => rfl, rfl,
    fun _ _ _ _ => rfl⟩

/-! ## SessionReconciler handlers

Each lifecycle handler is a pure function of the stored record, the
device-reported token, and the outcome of the external Plex fetch
(`get_track_by_key` returns `None` on a fetch error, modelled by
`fetchOk : Nat → Bool`; when the fetch succeeds, `plex.fetchItem k`
returns the track whose `ratingKey` is `k`). -/

/-- Source `PlaybackStartedHandler.handle` (lines 849-878): its only store
effect.  Find the first queue entry whose key matches the token; write
that index iff it differs from the stored one; returns the index written,
or `none` when nothing is written (no queue, empty queue, token not in the
queue, or index already correct). -/
def PlaybackStartedHandler.handle (store : Option QueueData) (token : Nat) :
    Option Nat :=
  match store with
  | none => none
  | some q =>
    if q.tracks.isEmpty then none
    else
      match q.tracks.findIdx? (fun t => t.key == token) with
      | none => none
      | some i => if i ≠ q.current_index then some i else none

/-- Result of `PlaybackNearlyFinishedHandler.handle`: the index written to
the store by `update_queue_index` (if any) and the emitted ENQUEUE
directive as `(track key, expected previous token)` (if any). -/
structure NearlyFinishedResult where
  indexWrite : Option Nat
  enqueue : Option (Nat × Nat)
deriving DecidableEq, Repr

/-- Source `PlaybackNearlyFinishedHandler.handle` (lines 885-970).
Re-derive the actual position by searching the queue for the token
(falling back to the stored index when the token is not found); if the
derived position differs from the stored one, write it; compute
`next_index = actual + 1`; past the end, enqueue nothing; otherwise fetch
the next track and, when the fetch succeeds, emit one ENQUEUE directive
for it carrying the current token as `expected_previous_token`. -/
def PlaybackNearlyFinishedHandler.handle (fetchOk : Nat → Bool)
    (store : Option QueueData) (token : Nat) : NearlyFinishedResult :=
  match store with
  | none => ⟨none, none⟩
  | some q =>
    if q.tracks.isEmpty then ⟨none, none⟩
    else
      let stored := q.current_index
      let actual := (q.tracks.findIdx? (fun t => t.key == token)).getD stored
      let write : Option Nat :=
        match q.tracks.findIdx? (fun t => t.key == token) with
        | none => none
        | some i => if i ≠ stored then some i else none
      let next := actual + 1
      if h : next < q.tracks.length then
        let ti := q.tracks.get ⟨next, h⟩
        if fetchOk ti.key then ⟨write, some (ti.key, token)⟩
        else ⟨write, none⟩
      else ⟨write, none⟩

/-- Source `PlaybackFailedHandler.handle` (lines 993-1057): its only store
effect.  Only a `SERVICE_UNAVAILABLE` error triggers recovery; with a
queue present it advances to `current_index + 1` iff that is still inside
the queue, writing the store; returns the written index or `none`. -/
def PlaybackFailedHandler.handle (serviceUnavailable : Bool)
    (store : Option QueueData) : Option Nat :=
  if serviceUnavailable then
    match store with
    | none => none
    | some q =>
      if q.tracks.isEmpty then none
      else if q.current_index + 1 < q.tracks.length
      then some (q.current_index + 1)
      else none
  else none

/-- Source `ShuffleOnIntentHandler.handle` (lines 1074-1111): the record
written by `put_item`, or `none` when nothing is written (no queue, or the
`tracks[current_index]` lookup raises `IndexError`, caught by the
handler).  `perm` is the permutation drawn by `random.shuffle`; the
current track is moved to position 0 (removing every entry sharing its
key) and `current_index` is set to 0. -/
def ShuffleOnIntentHandler.handle (perm : List TrackInfo → List TrackInfo)
    (store : Option QueueData) : Option QueueData :=
  match store with
  | none => none
  | some q =>
    if q.tracks.isEmpty then none
    else
      if h : q.current_index < q.tracks.length then
        let cur := q.tracks.get ⟨q.current_index, h⟩
        let rest := (perm q.tracks).filter (fun t => t.key ≠ cur.key)
        some ⟨cur :: rest, 0, true⟩
      else none

/-- Claim C1: on PlaybackNearlyFinished with token `t` found in the queue
at position `i` (the first matching entry), the handler writes `i` to the
store exactly when `i` differs from the stored index — and any index it
writes equals `i`, never `i + 1`; when `i + 1` is past the end it emits no
enqueue directive; otherwise, when the Plex fetch of the next track
succeeds, it emits exactly one ENQUEUE directive for `tracks[i+1]`
carrying `t` as the expected-previous token. -/
theorem C1_nearly_finished_reconciliation (fetchOk : Nat → Bool)
    (q : QueueData) (token i : Nat)
    (hfind : q.tracks.findIdx? (fun t => t.key == token) = some i) :
    ((PlaybackNearlyFinishedHandler.handle fetchOk (some q) token).indexWrite
        = if i = q.current_index then none else some i) ∧
    (∀ v, (PlaybackNearlyFinishedHandler.handle fetchOk (some q) token).indexWrite
        = some v → v = i) ∧
    (q.tracks.length ≤ i + 1 →
      (PlaybackNearlyFinishedHandler.handle fetchOk (some q) token).enqueue
        = none) ∧
    (∀ (h : i + 1 < q.tracks.length),
      fetchOk (q.tracks.get ⟨i + 1, h⟩).key = true →
      (PlaybackNearlyFinishedHandler.handle fetchOk (some q) token).enqueue
        = some ((q.tracks.get ⟨i + 1, h⟩).key, token)) := by
  have hne : q.tracks.isEmpty = false := by
    cases hq : q.tracks with
    | nil => rw [hq] at hfind; simp at hfind
    | cons a l => simp [hq]
  have key : PlaybackNearlyFinishedHandler.handle fetchOk (some q) token =
      ⟨if i = q.current_index then none else some i,
       if h : i + 1 < q.tracks.length then
         (if fetchOk (q.tracks.get ⟨i + 1, h⟩).key
          then some ((q.tracks.get ⟨i + 1, h⟩).key, token) else none)
       else none⟩ := by
    unfold PlaybackNearlyFinishedHandler.handle
    dsimp only
    rw [hne]
    simp only [Bool.false_eq_true, if_false, hfind, Option.getD_some]
    by_cases hi : i = q.current_index
    · simp only [hi, ite_self, ne_eq, not_true_eq_false, if_false]
      split
      · split <;> rfl
      · rfl
    · simp only [hi, ne_eq, not_false_eq_true, if_true, if_false]
      split
      · split <;> rfl
      · rfl
  refine ⟨by rw [key], ?_, ?_, ?_⟩
  · intro v hv
    rw [key] at hv
    by_cases hi : i = q.current_index
    · rw [if_pos hi] at hv; exact absurd hv (by simp)
    · rw [if_neg hi] at hv; exact (Option.some_injective _ hv).symm
  · intro hge
    rw [key]
    have hnot : ¬ (i + 1 < q.tracks.length) := by omega
    simp [hnot]
  · intro h hf
    rw [key]
    simp only [dif_pos h, if_pos hf]

def C1exQueue : QueueData :=
  ⟨[⟨10, "t0", "a"⟩, ⟨11, "t1", "a"⟩, ⟨12, "t2", "a"⟩, ⟨13, "t3", "a"⟩,
    ⟨14, "t4", "a"⟩, ⟨15, "t5", "a"⟩, ⟨16, "t6", "a"⟩], 2, false⟩

/-- Claim C1 witness: the spec's own example — stored index 2, the
nearly-finished token matching the key of `tracks[5]`: the store is
corrected to 5 and `tracks[6]` (key 16) is enqueued with expected-previous
token 15. -/
theorem C1_nearly_finished_witness :
    (PlaybackNearlyFinishedHandler.handle (fun _ => true) (some C1exQueue)
        15).indexWrite = some 5 ∧
    (PlaybackNearlyFinishedHandler.handle (fun _ => true) (some C1exQueue)
        15).enqueue = some (16, 15) := by
  have h := C1_nearly_finished_reconciliation (fun _ => true) C1exQueue 15 5
    (by decide)
  exact ⟨h.1.trans (by decide), (h.2.2.2 (by decide) rfl).trans (by decide)⟩

/-- The store write of `PlaybackNearlyFinishedHandler.handle` in closed
form: written iff the token is found at an index differing from the stored
one. -/
theorem nearlyFinished_indexWrite (fetchOk : Nat → Bool) (q : QueueData)
    (token : Nat) :
    (PlaybackNearlyFinishedHandler.handle fetchOk (some q) token).indexWrite =
      if q.tracks.isEmpty then none
      else
        match q.tracks.findIdx? (fun t => t.key == token) with
        | none => none
        | some i => if i ≠ q.current_index then some i else none := by
  unfold PlaybackNearlyFinishedHandler.handle
  dsimp only
  by_cases he : q.tracks.isEmpty
  · simp [he]
  · simp only [he, Bool.false_eq_true, if_false]
    split
    · split <;> rfl
    · rfl

/-- Claim C4 (counterexample): the claim requires every written
`current_index` to satisfy `0 <= v < len(tracks)`; the initial save of an
album that resolves but whose only track is rated 2.0 writes
`current_index = 0` alongside an empty tracks list, and `0 < 0` fails. -/
theorem C4_counterexample :
    initialSave "B" id false (.albumReq (some [⟨2, "y", .rated 2⟩]))
        = some ⟨[], 0, false⟩ ∧
    ¬ (0 < ([] : List TrackInfo).length) := by
  exact ⟨by decide, by decide⟩

/-- Claim C4 (amended): every index written by PlaybackStarted correction,
PlaybackNearlyFinished self-healing, PlaybackFailed recovery and
reshuffle-in-place is within `[0, len(tracks))` of the tracks read in the
same invocation; the initial save always writes index 0, which is within
bounds whenever the resolved track list is nonempty — but equals
`len(tracks) = 0` when the entity resolved to zero playable tracks. -/
theorem C4_index_bounds_amended :
    (∀ (q : QueueData) (t i : Nat),
       PlaybackStartedHandler.handle (some q) t = some i →
       i < q.tracks.length) ∧
    (∀ (fetchOk : Nat → Bool) (q : QueueData) (t i : Nat),
       (PlaybackNearlyFinishedHandler.handle fetchOk (some q) t).indexWrite
         = some i → i < q.tracks.length) ∧
    (∀ (su : Bool) (q : QueueData) (i : Nat),
       PlaybackFailedHandler.handle su (some q) = some i →
       i < q.tracks.length) ∧
    (∀ (perm : List TrackInfo → List TrackInfo) (q q' : QueueData),
       ShuffleOnIntentHandler.handle perm (some q) = some q' →
       q'.current_index = 0 ∧ q'.current_index < q'.tracks.length) ∧
    (∀ (a : String) (perm : List PlexTrack → List PlexTrack) (sh : Bool)
       (req : PlayReq) (r : QueueData),
       initialSave a perm sh req = some r →
       r.current_index = 0 ∧
         (r.tracks ≠ [] → r.current_index < r.tracks.length)) := by
  refine ⟨?_, ?_, ?_, ?_, ?_⟩
  · intro q t i h
    simp only [PlaybackStartedHandler.handle] at h
    split at h
    · exact absurd h (by simp)
    · cases hf : q.tracks.findIdx? (fun tr => tr.key == t) with
      | none => rw [hf] at h; exact absurd h (by simp)
      | some j =>
        rw [hf] at h
        dsimp only at h
        have hj := (List.findIdx?_eq_some_iff_findIdx_eq.mp hf).1
        by_cases hj2 : j ≠ q.current_index
        · rw [if_pos hj2] at h
          obtain rfl : j = i := Option.some_injective _ h
          exact hj
        · rw [if_neg hj2] at h; exact absurd h (by simp)
  · intro fetchOk q t i h
    rw [nearlyFinished_indexWrite] at h
    split at h
    · exact absurd h (by simp)
    · cases hf : q.tracks.findIdx? (fun tr => tr.key == t) with
      | none => rw [hf] at h; exact absurd h (by simp)
      | some j =>
        rw [hf] at h
        dsimp only at h
        have hj := (List.findIdx?_eq_some_iff_findIdx_eq.mp hf).1
        by_cases hj2 : j ≠ q.current_index
        · rw [if_pos hj2] at h
          obtain rfl : j = i := Option.some_injective _ h
          exact hj
        · rw [if_neg hj2] at h; exact absurd h (by simp)
  · intro su q i h
    simp only [PlaybackFailedHandler.handle] at h
    split at h
    · split at h
      · exact absurd h (by simp)
      · split at h
        · obtain rfl : q.current_index + 1 = i := Option.some_injective _ h
          assumption
        · exact absurd h (by simp)
    · exact absurd h (by simp)
  · intro perm q q' h
    simp only [ShuffleOnIntentHandler.handle] at h
    split at h
    · exact absurd h (by simp)
    · split at h
      · obtain rfl := Option.some_injective _ h
        exact ⟨rfl, by simp⟩
      · exact absurd h (by simp)
  · intro a perm sh req r h
    simp only [initialSave, playMusicSaveShuffled, Option.map_map] at h
    cases hs : playMusicSave req with
    | none => rw [hs] at h; exact absurd h (by simp)
    | some ts =>
      rw [hs] at h
      simp only [Option.map_some', Option.some_inj] at h
      subst h
      refine ⟨rfl, fun hne => ?_⟩
      exact List.length_pos.mpr hne

def C4exQueue : QueueData :=
  ⟨[⟨20, "u0", "b"⟩, ⟨21, "u1", "b"⟩, ⟨22, "u2", "b"⟩], 0, false⟩

/-- Claim C4 witness: PlaybackStarted with a token matching `tracks[1]` of
a three-track queue stored at index 0 writes index 1, which is within
bounds. -/
theorem C4_index_bounds_witness :
    PlaybackStartedHandler.handle (some C4exQueue) 21 = some 1 ∧
    1 < C4exQueue.tracks.length :=
  ⟨by decide, C4_index_bounds_amended.1 C4exQueue 21 1 (by decide)⟩

/-! ## `NextIntentHandler.handle` / `PreviousIntentHandler.handle`
(source lines 725-847)

Each navigation handler returns the store as it leaves it (these handlers
never call `save_queue`, `update_queue_index` or `put_item`, so the store
component is returned untouched on every path) together with its outward
outcome: no queue, a boundary message, a fetch failure message, the
generic exception message, or a REPLACE_ALL play directive for a track. -/

inductive NavOut where
  | noQueue
  | boundary
  | fetchFail
  | errorOut
  | play (t : TrackInfo)
deriving DecidableEq, Repr

/-- Source `NextIntentHandler.handle`: target `current_index + 1`; at or past the
end of the queue report the boundary; otherwise fetch the target track and
emit a play directive for it (or a failure message when the fetch
returns nothing). -/
def NextIntentHandler.handle (fetchOk : Nat → Bool)
    (store : Option QueueData) : Option QueueData × NavOut :=
  match store with
  | none => (none, .noQueue)
  | some q =>
    if q.tracks.isEmpty then (some q, .noQueue)
    else
      let nextIndex := q.current_index + 1
      if h : nextIndex < q.tracks.length then
        let ti := q.tracks.get ⟨nextIndex, h⟩
        if fetchOk ti.key then (some q, .play ti) else (some q, .fetchFail)
      else (some q, .boundary)

/-- Source `PreviousIntentHandler.handle`: target `current_index - 1`; below zero
report the boundary; an out-of-range stored index makes the
`tracks[prev_index]` lookup raise `IndexError`, which the handler's
`except` turns into the generic error message; otherwise fetch the target
track and emit a play directive for it. -/
def PreviousIntentHandler.handle (fetchOk : Nat → Bool)
    (store : Option QueueData) : Option QueueData × NavOut :=
  match store with
  | none => (none, .noQueue)
  | some q =>
    if q.tracks.isEmpty then (some q, .noQueue)
    else if q.current_index = 0 then (some q, .boundary)
    else
      let prevIndex := q.current_index - 1
      if h : prevIndex < q.tracks.length then
        let ti := q.tracks.get ⟨prevIndex, h⟩
        if fetchOk ti.key then (some q, .play ti) else (some q, .fetchFail)
      else (some q, .errorOut)

/-- Claim C5: for a stored queue satisfying the data model (nonempty
tracks, `current_index ≤ len(tracks)`), Next and Previous never change the
store on any path; a target index outside `[0, len(tracks))` yields the
boundary report with no playback directive; a target inside yields a
replace-now-playing directive for that exact track (when the Plex fetch
succeeds) — still with no store write. -/
theorem C5_navigation_frame (fetchOk : Nat → Bool) (q : QueueData)
    (hne : q.tracks ≠ []) (hle : q.current_index ≤ q.tracks.length) :
    ((NextIntentHandler.handle fetchOk (some q)).1 = some q) ∧
    ((PreviousIntentHandler.handle fetchOk (some q)).1 = some q) ∧
    (q.tracks.length ≤ q.current_index + 1 →
      (NextIntentHandler.handle fetchOk (some q)).2 = .boundary) ∧
    (∀ (h : q.current_index + 1 < q.tracks.length),
      fetchOk (q.tracks.get ⟨q.current_index + 1, h⟩).key = true →
      (NextIntentHandler.handle fetchOk (some q)).2
        = .play (q.tracks.get ⟨q.current_index + 1, h⟩)) ∧
    (q.current_index = 0 →
      (PreviousIntentHandler.handle fetchOk (some q)).2 = .boundary) ∧
    (∀ (hpos : 0 < q.current_index)
       (hb : q.current_index - 1 < q.tracks.length),
      fetchOk (q.tracks.get ⟨q.current_index - 1, hb⟩).key = true →
      (PreviousIntentHandler.handle fetchOk (some q)).2
        = .play (q.tracks.get ⟨q.current_index - 1, hb⟩)) := by
  have hee : q.tracks.isEmpty = false := by
    cases hq : q.tracks with
    | nil => exact absurd hq hne
    | cons a l => simp [hq]
  refine ⟨?_, ?_, ?_, ?_, ?_, ?_⟩
  · unfold NextIntentHandler.handle
    dsimp only
    rw [hee]
    simp only [Bool.false_eq_true, if_false]
    split
    · split <;> rfl
    · rfl
  · unfold PreviousIntentHandler.handle
    dsimp only
    rw [hee]
    simp only [Bool.false_eq_true, if_false]
    split
    · rfl
    · split
      · split <;> rfl
      · rfl
  · intro hb
    unfold NextIntentHandler.handle
    dsimp only
    rw [hee]
    have : ¬ (q.current_index + 1 < q.tracks.length) := by omega
    simp [this]
  · intro h hf
    unfold NextIntentHandler.handle
    dsimp only
    rw [hee]
    simp only [Bool.false_eq_true, if_false, dif_pos h, if_pos hf]
  · intro h0
    unfold PreviousIntentHandler.handle
    dsimp only
    rw [hee]
    simp [h0]
  · intro hpos hb hf
    unfold PreviousIntentHandler.handle
    dsimp only
    rw [hee]
    have h0 : ¬ (q.current_index = 0) := by omega
    simp only [Bool.false_eq_true, if_false, h0, dif_pos hb, if_pos hf]

def C5exQueue : QueueData :=
  ⟨[⟨30, "v0", "c"⟩, ⟨31, "v1", "c"⟩, ⟨32, "v2", "c"⟩], 2, false⟩

/-- Claim C5 witness: in a three-track queue at index 2, Next reports the
end-of-queue boundary and Previous plays `tracks[1]`; neither changes the
store. -/
theorem C5_navigation_witness :
    (NextIntentHandler.handle (fun _ => true) (some C5exQueue)).1
      = some C5exQueue ∧
    (NextIntentHandler.handle (fun _ => true) (some C5exQueue)).2
      = .boundary ∧
    (PreviousIntentHandler.handle (fun _ => true) (some C5exQueue)).1
      = some C5exQueue ∧
    (PreviousIntentHandler.handle (fun _ => true) (some C5exQueue)).2
      = .play ⟨31, "v1", "c"⟩ := by
  have h := C5_navigation_frame (fun _ => true) C5exQueue (by decide)
    (by decide)
  exact ⟨h.1, h.2.2.1 (by decide), h.2.1,
    (h.2.2.2.2.2 (by decide) (by decide) rfl).trans (by decide)⟩

/-- The dedup loop emits pairwise-distinct keys, all outside `seen`. -/
theorem dedupLimited_key_nodup :
    ∀ (l : List PlexTrack) (r : Nat) (seen : List Nat),
      ((dedupLimited r seen l).map (fun t => t.key)).Nodup ∧
      ∀ k ∈ (dedupLimited r seen l).map (fun t => t.key), k ∉ seen := by
  intro l
  induction l with
  | nil => intro r seen; simp [dedupLimited]
  | cons t ts ih =>
    intro r seen
    unfold dedupLimited
    by_cases hm : t.key ∈ seen
    · simp only [if_pos hm]
      exact ih r seen
    · simp only [if_neg hm]
      by_cases hr : r ≤ 1
      · simp only [if_pos hr]
        refine ⟨by simp, ?_⟩
        intro k hk
        simp only [List.map_cons, List.map_nil, List.mem_singleton] at hk
        subst hk
        exact hm
      · simp only [if_neg hr]
        obtain ⟨ih1, ih2⟩ := ih (r - 1) (t.key :: seen)
        constructor
        · simp only [List.map_cons]
          refine List.nodup_cons.mpr ⟨?_, ih1⟩
          intro hmem
          exact (ih2 _ hmem) (List.mem_cons_self _ _)
        · intro k hk
          simp only [List.map_cons, List.mem_cons] at hk
          rcases hk with rfl | hk
          · exact hm
          · intro hks
            exact (ih2 k hk) (List.mem_cons_of_mem _ hks)

/-- Claim C6: whatever list the artist branch hands to `save_queue` —
deduplicated before filtering and capping, then optionally shuffled — has
pairwise-distinct track keys: each key appears exactly once. -/
theorem C6_artist_key_uniqueness (perm : List PlexTrack → List PlexTrack)
    (hperm : ∀ l, (perm l).Perm l) (sh : Bool)
    (ts saved : List PlexTrack)
    (h : playMusicSaveShuffled perm sh (.artistReq (some ts)) = some saved) :
    (saved.map (fun t => t.key)).Nodup := by
  have base : ((artistQueue ts).map (fun t => t.key)).Nodup := by
    simp only [artistQueue]
    have hd := (dedupLimited_key_nodup
      (if MAX_TRACKS < ts.length then ts.take (MAX_TRACKS * 3) else ts)
      (MAX_TRACKS * 2) []).1
    have hsub :
        ((filter_tracks_by_rating
            (dedupLimited (MAX_TRACKS * 2) []
              (if MAX_TRACKS < ts.length
               then ts.take (MAX_TRACKS * 3) else ts))).take
          MAX_TRACKS).Sublist
          (dedupLimited (MAX_TRACKS * 2) []
            (if MAX_TRACKS < ts.length then ts.take (MAX_TRACKS * 3) else ts)) :=
      (List.take_sublist _ _).trans (List.filter_sublist _)
    exact hd.sublist (hsub.map (fun t => t.key))
  simp only [playMusicSaveShuffled, playMusicSave, Option.map_some',
    Option.some_inj] at h
  subst h
  by_cases hc : (sh && decide (1 < (artistQueue ts).length)) = true
  · rw [if_pos hc]
    exact (((hperm (artistQueue ts)).map (fun t => t.key)).nodup_iff).mpr base
  · rw [if_neg hc]
    exact base

def C6exTracks : List PlexTrack :=
  [⟨1, "a", .unrated⟩, ⟨1, "a", .unrated⟩, ⟨2, "b", .unrated⟩]

/-- Claim C6 witness: an artist list holding the same key twice resolves
to a saved queue containing that key exactly once. -/
theorem C6_artist_key_uniqueness_witness :
    ((artistQueue C6exTracks).map (fun t => t.key)).Nodup ∧
    (artistQueue C6exTracks).map (fun t => t.key) = [1, 2] :=
  ⟨C6_artist_key_uniqueness id (fun l => List.Perm.refl l) false C6exTracks
      (artistQueue C6exTracks) rfl,
    by decide⟩

/-! ## `plex_api_call_with_retry` (source lines 396-434)

The wrapped remote call is a function from the attempt number to its
outcome: a value, a transient-class exception (`SSLError`,
`ConnectionError`, `Timeout` — the only classes the `except` catches), or
any other exception.  The embedding returns the Python function's result
(`Except`: the value returned, or the exception that propagates) together
with the list of `time.sleep` durations performed, in order. -/

inductive CallOutcome (α : Type) where
  | ok (a : α)
  | transient (e : Nat)
  | fatal (e : Nat)

inductive RetryError where
  | transientErr (e : Nat)
  | fatalErr (e : Nat)
deriving DecidableEq, Repr

/-- The `for attempt in range(max_retries)` loop.  `remaining` is how many
attempts are left; a transient failure on the last attempt falls out of
the loop and the recorded `last_exception` is re-raised; with attempts
remaining it sleeps `2 ** attempt` seconds and retries; a non-transient
exception propagates out of the `try` at once, with no sleep. -/
def retryLoop (f : Nat → CallOutcome α) (attempt : Nat) :
    (remaining : Nat) → Except RetryError α × List Nat
  | 0 => (.error (.transientErr 0), [])
  | 1 =>
    match f attempt with
    | .ok a => (.ok a, [])
    | .fatal e => (.error (.fatalErr e), [])
    | .transient e => (.error (.transientErr e), [])
  | r + 2 =>
    match f attempt with
    | .ok a => (.ok a, [])
    | .fatal e => (.error (.fatalErr e), [])
    | .transient _ =>
      let p := retryLoop f (attempt + 1) (r + 1)
      (p.1, 2 ^ attempt :: p.2)

/-- Source `plex_api_call_with_retry` with its default `max_retries=3` (every
call site uses the default). -/
def plex_api_call_with_retry (f : Nat → CallOutcome α) :
    Except RetryError α × List Nat :=
  retryLoop f 0 3

/-- Claim C7: transient failures are retried with delays doubling each
attempt (1s then 2s across the three attempts); when every attempt fails
transiently the last transient exception is re-raised unchanged; a
non-transient exception propagates immediately from the attempt where it
occurs, with no further attempt and no delay; a success after transient
failures returns the value. -/
theorem C7_retry_semantics (f : Nat → CallOutcome Nat) :
    (∀ e0 e1 e2, f 0 = .transient e0 → f 1 = .transient e1 →
      f 2 = .transient e2 →
      plex_api_call_with_retry f = (.error (.transientErr e2), [1, 2])) ∧
    (∀ e, f 0 = .fatal e →
      plex_api_call_with_retry f = (.error (.fatalErr e), [])) ∧
    (∀ e0 e, f 0 = .transient e0 → f 1 = .fatal e →
      plex_api_call_with_retry f = (.error (.fatalErr e), [1])) ∧
    (∀ e0 e1 e, f 0 = .transient e0 → f 1 = .transient e1 → f 2 = .fatal e →
      plex_api_call_with_retry f = (.error (.fatalErr e), [1, 2])) ∧
    (∀ e0 a, f 0 = .transient e0 → f 1 = .ok a →
      plex_api_call_with_retry f = (.ok a, [1])) := by
  refine ⟨?_, ?_, ?_, ?_, ?_⟩
  · intro e0 e1 e2 h0 h1 h2
    simp [plex_api_call_with_retry, retryLoop, h0, h1, h2]
  · intro e h0
    simp [plex_api_call_with_retry, retryLoop, h0]
  · intro e0 e h0 h1
    simp [plex_api_call_with_retry, retryLoop, h0, h1]
  · intro e0 e1 e h0 h1 h2
    simp [plex_api_call_with_retry, retryLoop, h0, h1, h2]
  · intro e0 a h0 h1
    simp [plex_api_call_with_retry, retryLoop, h0, h1]

/-- Claim C7 witness: a call failing transiently on every attempt
(exceptions 100, 101, 102) sleeps 1s then 2s and re-raises the final
transient exception 102; a call failing fatally at once propagates with no
sleep. -/
theorem C7_retry_semantics_witness :
    plex_api_call_with_retry (fun k => (.transient (100 + k) : CallOutcome Nat))
      = (.error (.transientErr 102), [1, 2]) ∧
    plex_api_call_with_retry (fun _ => (.fatal 7 : CallOutcome Nat))
      = (.error (.fatalErr 7), []) :=
  ⟨(C7_retry_semantics (fun k => .transient (100 + k))).1 100 101 102
      rfl rfl rfl,
    (C7_retry_semantics (fun _ => .fatal 7)).2.1 7 rfl⟩

/-! ## `fetch_playlist_tracks_paginated` (source lines 304-393)

External pieces as parameters: `fetchPage p` is the server's response to
the page-`p` container request (`X-Plex-Container-Start = p * page_size`,
`X-Plex-Container-Size = page_size`); `allItems` is what `playlist.items()`
returns; `sample k n` is `sorted(random.sample(range(n), k))`, the page
indices drawn uniformly at random without replacement; `leafCount` is the
playlist's total-track-count metadata (after the `reload()` fallback),
`none` when still unavailable. -/

inductive FetchResult where
  | full (tracks : List PlexTrack)
  | paged (tracks : List PlexTrack) (pagesFetched : List Nat)

/-- The page loop: fetch each chosen page in order, concatenating, and
stop early once `target_count` tracks are gathered.  Returns the gathered
tracks and the pages actually fetched, in order. -/
def pagedLoop (fetchPage : Nat → List PlexTrack) (target : Nat) :
    List Nat → List PlexTrack → List PlexTrack × List Nat
  | [], acc => (acc, [])
  | p :: ps, acc =>
    let acc' := acc ++ fetchPage p
    if target ≤ acc'.length then (acc', [p])
    else
      let r := pagedLoop fetchPage target ps acc'
      (r.1, p :: r.2)

/-- Source `fetch_playlist_tracks_paginated`: when the playlist fits in the
target (or the count is unavailable, read as 0), fetch everything;
otherwise compute the page grid, draw `min(pages_needed, total_pages)`
page indices at random and fetch exactly those pages. -/
def fetch_playlist_tracks_paginated (fetchPage : Nat → List PlexTrack)
    (allItems : List PlexTrack) (sample : Nat → Nat → List Nat)
    (leafCount : Option Nat) (targetCount : Nat) (pageSize : Nat) :
    FetchResult :=
  let totalSize := leafCount.getD 0
  if totalSize ≤ targetCount then .full allItems
  else
    let totalPages := (totalSize + pageSize - 1) / pageSize
    let pagesNeeded := (targetCount + pageSize - 1) / pageSize
    let pagesToFetch := sample (min pagesNeeded totalPages) totalPages
    let r := pagedLoop fetchPage targetCount pagesToFetch []
    .paged r.1 r.2

/-- When every page holds at most `pageSize` tracks and even
`pageSize * (len(pages) - 1)` tracks on top of the accumulator stay below
the target, the early break cannot fire before the last chosen page, so
the loop fetches exactly the chosen pages. -/
theorem pagedLoop_fetches_all (fetchPage : Nat → List PlexTrack)
    (target pageSize : Nat) (hPage : ∀ p, (fetchPage p).length ≤ pageSize) :
    ∀ (pages : List Nat) (acc : List PlexTrack),
      acc.length + pageSize * (pages.length - 1) < target →
      (pagedLoop fetchPage target pages acc).2 = pages := by
  intro pages
  induction pages with
  | nil => intro acc _; rfl
  | cons p ps ih =>
    intro acc h
    unfold pagedLoop
    have hlen : (acc ++ fetchPage p).length ≤ acc.length + pageSize := by
      have := hPage p
      simp only [List.length_append]
      omega
    cases ps with
    | nil =>
      dsimp only
      split <;> rfl
    | cons q qs =>
      have e1 : (p :: q :: qs).length - 1 = qs.length + 1 := by simp
      rw [e1, Nat.mul_succ] at h
      by_cases hb : target ≤ (acc ++ fetchPage p).length
      · exfalso
        omega
      · simp only [hb, if_false]
        have hrec : (pagedLoop fetchPage target (q :: qs)
            (acc ++ fetchPage p)).2 = q :: qs := by
          apply ih
          have e2 : (q :: qs).length - 1 = qs.length := by simp
          rw [e2]
          omega
        simp [hrec]

/-- Claim C8: for a playlist whose track count exceeds the fetch target
`2 * MAX_TRACKS`, the selector computes the page grid, draws exactly the
`ceil(target / page_size) = 6` pages needed (the draw itself — uniform,
without replacement, within range — is the `sample` contract in the
hypotheses), fetches exactly those chosen pages and no others (at least
one page of the playlist is never fetched), and the handler's final queue
is capped at `MAX_TRACKS`; when the total-count metadata is unavailable it
falls back to fetching the whole playlist. -/
theorem C8_playlist_sampling (fetchPage : Nat → List PlexTrack)
    (allItems : List PlexTrack) (sample : Nat → Nat → List Nat)
    (total : Nat) (hTotal : 2 * MAX_TRACKS < total)
    (hPage : ∀ p, (fetchPage p).length ≤ 50)
    (hSampleLen : ∀ k n, k ≤ n → (sample k n).length = k)
    (hSampleNodup : ∀ k n, (sample k n).Nodup)
    (hSampleMem : ∀ k n p, k ≤ n → p ∈ sample k n → p < n) :
    (∃ tr, fetch_playlist_tracks_paginated fetchPage allItems sample
          (some total) (2 * MAX_TRACKS) 50
        = .paged tr (sample 6 ((total + 49) / 50)) ∧
      ((filter_tracks_by_rating tr).take MAX_TRACKS).length ≤ MAX_TRACKS) ∧
    (sample 6 ((total + 49) / 50)).length = 6 ∧
    6 < (total + 49) / 50 ∧
    (∃ p, p < (total + 49) / 50 ∧ p ∉ sample 6 ((total + 49) / 50)) ∧
    fetch_playlist_tracks_paginated fetchPage allItems sample none
        (2 * MAX_TRACKS) 50 = .full allItems := by
  have h7 : 7 ≤ (total + 49) / 50 := by
    have h350 : 350 ≤ total + 49 := by
      simp only [MAX_TRACKS] at hTotal
      omega
    calc 7 = 350 / 50 := by norm_num
      _ ≤ (total + 49) / 50 := Nat.div_le_div_right h350
  have h6 : 6 < (total + 49) / 50 := by omega
  have hlen6 : (sample 6 ((total + 49) / 50)).length = 6 :=
    hSampleLen 6 _ (Nat.le_of_lt h6)
  refine ⟨?_, hlen6, h6, ?_, by simp [fetch_playlist_tracks_paginated,
    MAX_TRACKS]⟩
  · have hne : ¬ ((some total).getD 0 ≤ 2 * MAX_TRACKS) := by
      simp only [Option.getD_some, MAX_TRACKS]
      simp only [MAX_TRACKS] at hTotal
      omega
    have hneed : (2 * MAX_TRACKS + 50 - 1) / 50 = 6 := by
      norm_num [MAX_TRACKS]
    have hmin : min ((2 * MAX_TRACKS + 50 - 1) / 50)
        (((some total).getD 0 + 50 - 1) / 50) = 6 := by
      rw [hneed]
      simp only [Option.getD_some]
      have : total + 50 - 1 = total + 49 := by omega
      rw [this]
      exact Nat.min_eq_left (Nat.le_of_lt h6)
    refine ⟨(pagedLoop fetchPage (2 * MAX_TRACKS)
        (sample 6 ((total + 49) / 50)) []).1, ?_, ?_⟩
    · unfold fetch_playlist_tracks_paginated
      dsimp only
      rw [if_neg hne, hmin]
      have htp : ((some total).getD 0 + 50 - 1) / 50 = (total + 49) / 50 := by
        have he : (some total).getD 0 + 50 - 1 = total + 49 := by
          simp only [Option.getD_some]
          omega
        rw [he]
      rw [htp]
      have hfetched : (pagedLoop fetchPage (2 * MAX_TRACKS)
          (sample 6 ((total + 49) / 50)) []).2
          = sample 6 ((total + 49) / 50) := by
        apply pagedLoop_fetches_all fetchPage (2 * MAX_TRACKS) 50 hPage
        rw [hlen6]
        simp [MAX_TRACKS]
      rw [hfetched]
    · exact (List.length_take_le _ _).trans (le_refl _)
  · by_contra hall
    push_neg at hall
    have hsub : List.range ((total + 49) / 50)
        ⊆ sample 6 ((total + 49) / 50) := by
      intro p hp
      exact hall p (List.mem_range.mp hp)
    have hle := ((List.nodup_range _).subperm hsub).length_le
    rw [List.length_range, hlen6] at hle
    omega

/-- Claim C8 witness: a 500-track playlist with 50-track pages and the
sampler drawing pages 0..5: exactly those six pages of the ten are
fetched, page 9 is never fetched, and the final queue is capped at
`MAX_TRACKS`. -/
theorem C8_playlist_sampling_witness :
    (∃ tr, fetch_playlist_tracks_paginated
          (fun _ => List.replicate 50 (⟨0, "p", .unrated⟩ : PlexTrack)) []
          (fun k _ => List.range k) (some 500) (2 * MAX_TRACKS) 50
        = .paged tr (List.range 6) ∧
      ((filter_tracks_by_rating tr).take MAX_TRACKS).length ≤ MAX_TRACKS) ∧
    (∃ p, p < 10 ∧ p ∉ List.range 6) := by
  have h := C8_playlist_sampling
    (fun _ => List.replicate 50 (⟨0, "p", .unrated⟩ : PlexTrack)) []
    (fun k _ => List.range k) 500 (by decide) (fun _ => by simp)
    (fun k n _ => by simp) (fun k _ => List.nodup_range k)
    (fun k n p hk hp => lt_of_lt_of_le (List.mem_range.mp hp) hk)
  obtain ⟨⟨tr, htr, hcap⟩, _, _, ⟨p, hp1, hp2⟩, _⟩ := h
  exact ⟨⟨tr, htr, hcap⟩, ⟨p, hp1, hp2⟩⟩

/-! ## `fuzzy_match_artist` (source lines 35-44, 455-482)

`difflib.get_close_matches(spoken, artists, n=1, cutoff=0.6)` keeps the
candidates whose similarity ratio reaches the cutoff and returns the best
of them (ties going to the earlier list entry); the ratio metric itself is
the parameter `sim`.  The process-lifetime artist cache is the parameter
`cache`: `load_artist_cache` returns the loaded list, or `[]` when the
load failed. -/

def ARTIST_MAPPINGS : List (String × String) :=
  [("sugar free", "Suga Free"),
   ("austin larolle", "Austin Larold"),
   ("austin larold", "Austin Larold"),
   ("austin", "Austin Larold"),
   ("doctor dre", "Dr. Dre"),
   ("doctor dray", "Dr. Dre"),
   ("the doctor", "Dr. Dre"),
   ("86 love", "86LOVE")]

/-- Python `str.lower()` as the override lookup uses it (ASCII case
folding suffices for the table's keys). -/
def lowerChar (c : Char) : Char :=
  if 'A' ≤ c ∧ c ≤ 'Z' then Char.ofNat (c.toNat + 32) else c

def lowerCase (s : String) : String := ⟨s.data.map lowerChar⟩

/-- Best-scoring candidate, earliest list entry winning ties. -/
def bestCand (sim : String → String → ℚ) (s : String) :
    List String → Option String
  | [] => none
  | c :: cs =>
    match bestCand sim s cs with
    | none => some c
    | some b => if sim s b ≤ sim s c then some c else some b

/-- Model of `difflib.get_close_matches` with `n=1`: best candidate among those
reaching the cutoff, `none` when none reaches it. -/
def getCloseMatches (sim : String → String → ℚ) (s : String)
    (cands : List String) (cutoff : ℚ) : Option String :=
  bestCand sim s (cands.filter (fun c => decide (cutoff ≤ sim s c)))

/-- Source `fuzzy_match_artist`: manual override table first (keyed on the
lower-cased spoken name), then the 0.6-cutoff similarity search over the
cache, then the original name unchanged. -/
def fuzzy_match_artist (sim : String → String → ℚ) (cache : List String)
    (spoken : String) : String :=
  match ARTIST_MAPPINGS.lookup (lowerCase spoken) with
  | some m => m
  | none =>
    if cache.isEmpty then spoken
    else
      match getCloseMatches sim spoken cache (3 / 5) with
      | some m => m
      | none => spoken

theorem bestCand_mem (sim : String → String → ℚ) (s : String) :
    ∀ (l : List String) (b : String), bestCand sim s l = some b → b ∈ l := by
  intro l
  induction l with
  | nil => intro b h; simp [bestCand] at h
  | cons c cs ih =>
    intro b h
    unfold bestCand at h
    cases hr : bestCand sim s cs with
    | none =>
      rw [hr] at h
      dsimp only at h
      obtain rfl := Option.some_injective _ h
      exact List.mem_cons_self _ _
    | some b' =>
      rw [hr] at h
      dsimp only at h
      by_cases hle : sim s b' ≤ sim s c
      · rw [if_pos hle] at h
        obtain rfl := Option.some_injective _ h
        exact List.mem_cons_self _ _
      · rw [if_neg hle] at h
        obtain rfl := Option.some_injective _ h
        exact List.mem_cons_of_mem _ (ih _ hr)

theorem bestCand_isMax (sim : String → String → ℚ) (s : String) :
    ∀ (l : List String) (b : String), bestCand sim s l = some b →
      ∀ c ∈ l, sim s c ≤ sim s b := by
  intro l
  induction l with
  | nil => intro b h; simp [bestCand] at h
  | cons c cs ih =>
    intro b h d hd
    unfold bestCand at h
    cases hr : bestCand sim s cs with
    | none =>
      rw [hr] at h
      dsimp only at h
      obtain rfl := Option.some_injective _ h
      rcases List.mem_cons.mp hd with rfl | hd'
      · exact le_refl _
      · exfalso
        cases cs with
        | nil => simp at hd'
        | cons x xs => simp [bestCand] at hr; cases hx : bestCand sim s xs <;>
            simp [hx] at hr <;> split at hr <;> simp_all
    | some b' =>
      rw [hr] at h
      dsimp only at h
      by_cases hle : sim s b' ≤ sim s c
      · rw [if_pos hle] at h
        obtain rfl := Option.some_injective _ h
        rcases List.mem_cons.mp hd with rfl | hd'
        · exact le_refl _
        · exact (ih _ hr d hd').trans hle
      · rw [if_neg hle] at h
        obtain rfl := Option.some_injective _ h
        rcases List.mem_cons.mp hd with rfl | hd'
        · exact le_of_not_le hle
        · exact ih _ hr d hd'

theorem bestCand_isSome (sim : String → String → ℚ) (s : String) :
    ∀ (l : List String), l ≠ [] → ∃ b, bestCand sim s l = some b := by
  intro l
  cases l with
  | nil => intro h; exact absurd rfl h
  | cons c cs =>
    intro _
    unfold bestCand
    cases hr : bestCand sim s cs with
    | none => exact ⟨c, rfl⟩
    | some b' =>
      by_cases hle : sim s b' ≤ sim s c
      · exact ⟨c, by dsimp only; rw [if_pos hle]⟩
      · exact ⟨b', by dsimp only; rw [if_neg hle]⟩

/-- Claim C9: an override-table hit (keyed on the lower-cased spoken name)
is returned immediately for every similarity metric and every cache — so
similarity search can never override it; with no override and an empty or
failed-to-load cache the spoken string comes back unchanged; with no
override and every cached name below similarity 0.6 the spoken string
comes back unchanged; and when some cached name reaches 0.6 the returned
name is a cached name of maximal similarity, itself reaching 0.6. -/
theorem C9_fuzzy_match (sim : String → String → ℚ) (cache : List String)
    (spoken : String) :
    (∀ m, ARTIST_MAPPINGS.lookup (lowerCase spoken) = some m →
       fuzzy_match_artist sim cache spoken = m) ∧
    (ARTIST_MAPPINGS.lookup (lowerCase spoken) = none → cache = [] →
       fuzzy_match_artist sim cache spoken = spoken) ∧
    (ARTIST_MAPPINGS.lookup (lowerCase spoken) = none →
       (∀ c ∈ cache, sim spoken c < 3 / 5) →
       fuzzy_match_artist sim cache spoken = spoken) ∧
    (ARTIST_MAPPINGS.lookup (lowerCase spoken) = none → ∀ b ∈ cache,
       (3 / 5 : ℚ) ≤ sim spoken b →
       ∃ m, fuzzy_match_artist sim cache spoken = m ∧ m ∈ cache ∧
         (3 / 5 : ℚ) ≤ sim spoken m ∧
         ∀ c ∈ cache, sim spoken c ≤ sim spoken m) := by
  refine ⟨?_, ?_, ?_, ?_⟩
  · intro m hm
    unfold fuzzy_match_artist
    rw [hm]
  · intro hn hc
    unfold fuzzy_match_artist
    rw [hn]
    subst hc
    rfl
  · intro hn hall
    unfold fuzzy_match_artist
    rw [hn]
    dsimp only
    by_cases hc : cache.isEmpty
    · rw [if_pos hc]
    · rw [if_neg hc]
      have hfil : cache.filter (fun c => decide ((3 / 5 : ℚ) ≤ sim spoken c))
          = [] := by
        rw [List.filter_eq_nil]
        intro c hcmem
        simpa using not_le.mpr (hall c hcmem)
      rw [getCloseMatches, hfil]
      rfl
  · intro hn b hb hbs
    unfold fuzzy_match_artist
    rw [hn]
    dsimp only
    have hbf : b ∈ cache.filter (fun c => decide ((3 / 5 : ℚ) ≤ sim spoken c)) :=
      List.mem_filter.mpr ⟨hb, by simpa using hbs⟩
    have hfne : cache.filter (fun c => decide ((3 / 5 : ℚ) ≤ sim spoken c))
        ≠ [] := by
      intro he
      rw [he] at hbf
      simp at hbf
    have hc : cache.isEmpty = false := by
      cases hq : cache with
      | nil => rw [hq] at hb; simp at hb
      | cons x xs => simp [hq]
    rw [hc]
    simp only [Bool.false_eq_true, if_false]
    obtain ⟨m, hm⟩ := bestCand_isSome sim spoken _ hfne
    rw [getCloseMatches, hm]
    refine ⟨m, rfl, ?_, ?_, ?_⟩
    · exact (List.mem_filter.mp (bestCand_mem sim spoken _ m hm)).1
    · have := (List.mem_filter.mp (bestCand_mem sim spoken _ m hm)).2
      simpa using this
    · intro c hcmem
      by_cases hcs : (3 / 5 : ℚ) ≤ sim spoken c
      · exact bestCand_isMax sim spoken _ m hm c
          (List.mem_filter.mpr ⟨hcmem, by simpa using hcs⟩)
      · have hm06 := (List.mem_filter.mp (bestCand_mem sim spoken _ m hm)).2
        have : (3 / 5 : ℚ) ≤ sim spoken m := by simpa using hm06
        exact le_trans (le_of_not_le hcs) this

/-- Claim C9 witness: the override for "Sugar Free" wins although every
cached name has similarity 1 under the given metric; and a spoken name
with no override whose best cached similarity is 0 comes back unchanged. -/
theorem C9_fuzzy_match_witness :
    fuzzy_match_artist (fun _ _ => 1) ["Closest Name"] "Sugar Free"
      = "Suga Free" ∧
    fuzzy_match_artist (fun _ _ => 0) ["Queen"] "zzz" = "zzz" := by
  refine ⟨(C9_fuzzy_match (fun _ _ => 1) ["Closest Name"] "Sugar Free").1
      "Suga Free" (by decide), ?_⟩
  exact (C9_fuzzy_match (fun _ _ => 0) ["Queen"] "zzz").2.2.1 (by decide)
    (fun c _ => by norm_num)
